import Mathlib

/-!
Verification of the change-event stream subsystem of the pcloud-async-api
client library (`src/events.rs`), as a shallow embedding in Lean 4.

The embedding models:
  * the data model `Diff` / `DiffEntry` (from `src/pcloud_model.rs`);
  * the request builder `DiffRequestBuilder` and its query-parameter
    assembly in `get` (network transmission itself is external);
  * the batch publisher `stream_once`, with the outcome of the network
    call `self.get()` supplied as an explicit `FetchResult`;
  * the reconnecting driver loop `stream`, driven by a finite script of
    fetch results and an optional consumer-close schedule.

The tokio mpsc channel is modelled by the list of entries the driver
sends plus a boolean closed-flag observed at the loop check and at the
publish point of each cycle; consumer closure is a cycle index `closeAt`
(the consumer drops the receiver while fetch number `closeAt`, 0-based,
is in flight).  Closure granularity is per cycle: the code's further
mid-batch send-failure path (`tx.send(entry).await?`) cannot fire in the
model because `is_closed` is checked at the publish point with the same
flag.  The driver loop, infinite in the code until a break or closure,
is finitized by the script; exhausting the script while still polling is
reported as the model-artifact stop reason `scriptEnd`.
-/

/-- An entry of a diff response (`pcloud_model.rs`, `struct DiffEntry`).
Only the cursor `diffid` steers any control flow in `events.rs`; the
remaining payload (time, event kind, metadata, share) is abstracted into
an opaque tag `event`. -/
structure DiffEntry where
  diffid : Nat
  event : Nat
deriving DecidableEq, Repr

/-- Result of the `diff` call (`pcloud_model.rs`, `struct Diff`): the
last diff id listed and the entries. -/
structure Diff where
  diffid : Nat
  entries : List DiffEntry
deriving DecidableEq, Repr

/-- The builder configuration (`events.rs`, `struct DiffRequestBuilder`).
The `client` handle is external and omitted; `timeout` durations are
abstracted to `Nat` milliseconds. -/
structure DiffRequestBuilder where
  diff_id : Option Nat
  after : Option String
  last : Option Nat
  block : Bool
  timeout : Option Nat
  limit : Option Nat
deriving DecidableEq, Repr

namespace DiffRequestBuilder

/-- Constructor `DiffRequestBuilder::create`: all fields unset, `block` false. -/
def create : DiffRequestBuilder :=
  { diff_id := none, after := none, last := none, block := false
    limit := none, timeout := none }

/-- The query parameters assembled by `DiffRequestBuilder::get`
(`events.rs` lines 187-222), in the order the code appends them:
`diffid`, `after`, `last`, `limit`, then `block=1` guarded by
`self.block && self.diff_id.is_some()`.  The per-request timeout is a
transport setting, not a query parameter. -/
def queryParams (b : DiffRequestBuilder) : List (String × String) :=
  (match b.diff_id with
   | some v => [("diffid", toString v)]
   | none => [])
  ++ (match b.after with
      | some v => [("after", v)]
      | none => [])
  ++ (match b.last with
      | some v => [("last", toString v)]
      | none => [])
  ++ (match b.limit with
      | some v => [("limit", toString v)]
      | none => [])
  ++ (if b.block && b.diff_id.isSome then [("block", "1")] else [])

end DiffRequestBuilder

/-- Outcome of one `self.get().await` call, classified the way the
driver loop classifies the error (`events.rs` lines 168-178): a decoded
`Diff`, a reqwest timeout error, or anything else (non-timeout transport
error, decode failure, non-reqwest error) which the loop treats as
fatal. -/
inductive FetchResult where
  | success (d : Diff)
  | timeout
  | fatal
deriving DecidableEq, Repr

/-- Result value of one `stream_once` call: `Ok(newCursor)` or the two
error classes distinguished by the driver loop. -/
inductive OnceResult where
  | ok (newCursor : Option Nat)
  | errTimeout
  | errFatal
deriving DecidableEq, Repr

/-- The entries `stream_once` sends for one non-empty batch, given the
request cursor (`events.rs` lines 116-126): with an old diff id every
entry with `entry.diffid > old_diff_id` is sent, without one every entry
is sent. -/
def sentEntries (diff_id : Option Nat) (entries : List DiffEntry) : List DiffEntry :=
  match diff_id with
  | some old_diff_id => entries.filter (fun e => decide (old_diff_id < e.diffid))
  | none => entries

/-- Function `DiffRequestBuilder::stream_once` (`events.rs` lines 106-132), with
the outcome of `self.get().await` passed in as `fetch` and the channel's
closed-flag at the publish point passed in as `closed`.  Returns the
entries sent to the channel and the result: on a non-empty batch the
entries pass the cursor filter when the channel is open (a closed
channel publishes nothing) and the result is `Ok(Some(diffs.diffid))`
either way; on an empty batch nothing is sent and the result is
`Ok(diff_id)`, the unchanged request cursor; a failed `get` propagates
as the corresponding error. -/
def stream_once (diff_id : Option Nat) (fetch : FetchResult) (closed : Bool) :
    List DiffEntry × OnceResult :=
  match fetch with
  | FetchResult.timeout => ([], OnceResult.errTimeout)
  | FetchResult.fatal => ([], OnceResult.errFatal)
  | FetchResult.success diffs =>
    if diffs.entries.length > 0 then
      ((if closed then [] else sentEntries diff_id diffs.entries),
        OnceResult.ok (some diffs.diffid))
    else
      ([], OnceResult.ok diff_id)

/-- The request the driver loop builds for each cycle (`events.rs`
lines 149-162): `after` is dropped as soon as a cursor is present,
`diff_id` is the loop's current cursor, `block` is forced to `true`, the
remaining fields are copied from the original builder. -/
def nextBuilder (self : DiffRequestBuilder) (next_diff_id : Option Nat) :
    DiffRequestBuilder :=
  { after := if next_diff_id.isSome then none else self.after
    diff_id := next_diff_id
    block := true
    last := self.last
    limit := self.limit
    timeout := self.timeout }

/-- Why a driver run stopped: the loop check saw a closed channel, a
fatal error broke the loop, or the finite fetch script ran out while
the code's loop would have kept polling (model artifact). -/
inductive StopReason where
  | consumerClosed
  | fatalError
  | scriptEnd
deriving DecidableEq, Repr

/-- Observable outcome of a driver run: the entries published to the
channel in order, the requests issued in order, and why it stopped.
Whenever the loop exits, the spawned task ends and the sender is
dropped, so the consumer observes end-of-stream. -/
structure RunResult where
  published : List DiffEntry
  requests : List DiffRequestBuilder
  reason : StopReason
deriving DecidableEq, Repr

/-- Whether the channel is still open at the `while !tx.is_closed()`
check of cycle `i`: a close during the flight of fetch `closeAt` is
first visible to loop checks from cycle `closeAt + 1` on. -/
def openAtCheck (closeAt : Option Nat) (i : Nat) : Bool :=
  match closeAt with
  | none => true
  | some c => decide (i ≤ c)

/-- Whether the channel is still open at the publish point of cycle `i`
(the `!tx.is_closed()` inside `stream_once`): a close during the flight
of fetch `closeAt` is already visible when that fetch completes. -/
def openAtPublish (closeAt : Option Nat) (i : Nat) : Bool :=
  match closeAt with
  | none => true
  | some c => decide (i < c)

/-- The driver loop of `DiffRequestBuilder::stream` (`events.rs` lines
146-181), one cycle per script element: check the channel, build the
next request from the current cursor, run `stream_once` on the scripted
fetch outcome, then on `Ok` adopt the returned cursor and continue, on a
timeout error keep the cursor and continue, and on any other error break
out of the loop. -/
def runAux (self : DiffRequestBuilder) (next_diff_id : Option Nat)
    (script : List FetchResult) (closeAt : Option Nat) (i : Nat) : RunResult :=
  if openAtCheck closeAt i then
    match script with
    | [] => ⟨[], [], StopReason.scriptEnd⟩
    | f :: rest =>
      let next := nextBuilder self next_diff_id
      let step := stream_once next.diff_id f (! openAtPublish closeAt i)
      match step.2 with
      | OnceResult.ok newId =>
        let r := runAux self newId rest closeAt (i + 1)
        ⟨step.1 ++ r.published, next :: r.requests, r.reason⟩
      | OnceResult.errTimeout =>
        let r := runAux self next_diff_id rest closeAt (i + 1)
        ⟨step.1 ++ r.published, next :: r.requests, r.reason⟩
      | OnceResult.errFatal =>
        ⟨step.1, [next], StopReason.fatalError⟩
  else
    ⟨[], [], StopReason.consumerClosed⟩

/-- Function `DiffRequestBuilder::stream` (`events.rs` lines 135-184): the
spawned driver task starting from the builder's own cursor, driven by a
finite script of fetch outcomes and a consumer-close schedule. -/
def DiffRequestBuilder.stream (self : DiffRequestBuilder)
    (script : List FetchResult) (closeAt : Option Nat) : RunResult :=
  runAux self self.diff_id script closeAt 0

/-- Function `filter_stream` (`events.rs` lines 14-33): the spawned task receives
each entry of the source in order, applies the predicate, and forwards
exactly the accepted entries.  The downstream channel is modelled as
drained by its consumer, so the send-failure break never fires. -/
def filter_stream (source : List DiffEntry) (filter : DiffEntry → Bool) :
    List DiffEntry :=
  match source with
  | [] => []
  | entry :: rest =>
    if filter entry then entry :: filter_stream rest filter
    else filter_stream rest filter

/-! ## Theorems -/

/-- Helper: the entries sent for an empty batch are empty. -/
theorem sentEntries_nil (diff_id : Option Nat) : sentEntries diff_id [] = [] := by
  cases diff_id <;> simp [sentEntries]

/-- C9: the `block=1` query parameter appears in a built request exactly
when blocking is configured and a cursor (`diff_id`) is set; in
particular a request without a cursor never asks for server-side
blocking, even when blocking is configured. -/
theorem get_block_param_iff (b : DiffRequestBuilder) :
    ("block", "1") ∈ b.queryParams ↔ (b.block = true ∧ b.diff_id.isSome = true) := by
  rcases b with ⟨di, af, la, bl, tm, li⟩
  cases di <;> cases af <;> cases la <;> cases li <;> cases bl <;>
    simp [DiffRequestBuilder.queryParams, List.mem_append]

/-- Helper: `filter_stream` computes exactly `List.filter`. -/
theorem filter_stream_eq_filter (s : List DiffEntry) (p : DiffEntry → Bool) :
    filter_stream s p = s.filter p := by
  induction s with
  | nil => rfl
  | cons e rest ih =>
    by_cases hp : p e = true <;> simp [filter_stream, List.filter, hp, ih]

/-- C7: the filter stage's output is the subsequence of input entries
satisfying the predicate, in the original order: it equals
`List.filter`, it is a sublist of the input (order preserved, nothing
duplicated), an entry appears in the output exactly when it appears in
the input and matches, and each entry's multiplicity is preserved for
matching entries and zero otherwise. -/
theorem filter_stream_spec (s : List DiffEntry) (p : DiffEntry → Bool) :
    filter_stream s p = s.filter p
    ∧ List.Sublist (filter_stream s p) s
    ∧ (∀ e, e ∈ filter_stream s p ↔ (e ∈ s ∧ p e = true))
    ∧ (∀ e, (filter_stream s p).count e = if p e then s.count e else 0) := by
  refine ⟨filter_stream_eq_filter s p, ?_, ?_, ?_⟩
  · rw [filter_stream_eq_filter]; exact List.filter_sublist s
  · intro e; rw [filter_stream_eq_filter, List.mem_filter]
  · intro e
    rw [filter_stream_eq_filter]
    by_cases hp : p e = true
    · rw [List.count_filter hp, if_pos hp]
    · rw [if_neg hp, List.count_eq_zero]
      intro hmem
      exact hp (List.mem_filter.mp hmem).2

/-- C2: for a poll made with a request cursor set, the entries published
for the returned batch are exactly the entries whose `diffid` is
strictly greater than the request cursor, in order (when the channel is
open at the publish point); and no published entry ever has a `diffid`
at or below the request cursor, whatever the channel state. -/
theorem stream_once_filters_by_cursor (c : Nat) (d : Diff) :
    (stream_once (some c) (FetchResult.success d) false).1
      = d.entries.filter (fun e => decide (c < e.diffid))
    ∧ ∀ closed : Bool, ∀ e ∈ (stream_once (some c) (FetchResult.success d) closed).1,
        c < e.diffid := by
  constructor
  · rcases d with ⟨hw, entries⟩
    cases entries with
    | nil => simp [stream_once]
    | cons a rest => simp [stream_once, sentEntries]
  · intro closed e he
    rcases d with ⟨hw, entries⟩
    cases entries with
    | nil => simp [stream_once] at he
    | cons a rest =>
      cases closed with
      | true => simp [stream_once] at he
      | false =>
        simp [stream_once, sentEntries, List.mem_filter] at he
        exact he.2

/-- Witness for C2 at a concrete input: with request cursor 1 and a
batch holding the single entry with diffid 2, the entry is published and
its diffid exceeds the cursor. -/
theorem stream_once_filters_by_cursor_witness :
    (⟨2, 0⟩ : DiffEntry) ∈
      (stream_once (some 1) (FetchResult.success ⟨2, [⟨2, 0⟩]⟩) false).1
    ∧ (1 : Nat) < (⟨2, 0⟩ : DiffEntry).diffid :=
  ⟨by decide,
    (stream_once_filters_by_cursor 1 ⟨2, [⟨2, 0⟩]⟩).2 false ⟨2, 0⟩ (by decide)⟩

/-- C5: when the second fetch of a run is fatal (after a successful
first batch), the run publishes exactly the first batch's filtered
entries, stops with the fatal-error reason (so the driver task ends and
the consumer sees end-of-stream), and issues exactly 2 fetch requests no
matter how much script follows the fatal result. -/
theorem stream_fatal_terminates (self : DiffRequestBuilder) (d : Diff)
    (rest : List FetchResult) :
    (self.stream (FetchResult.success d :: FetchResult.fatal :: rest) none).published
      = sentEntries self.diff_id d.entries
    ∧ (self.stream (FetchResult.success d :: FetchResult.fatal :: rest) none).reason
      = StopReason.fatalError
    ∧ (self.stream (FetchResult.success d :: FetchResult.fatal :: rest) none).requests.length
      = 2 := by
  rcases d with ⟨hw, entries⟩
  cases entries with
  | nil =>
    refine ⟨?_, ?_, ?_⟩ <;>
      simp [DiffRequestBuilder.stream, runAux, stream_once, openAtCheck,
        openAtPublish, nextBuilder, sentEntries_nil]
  | cons a tail =>
    refine ⟨?_, ?_, ?_⟩ <;>
      simp [DiffRequestBuilder.stream, runAux, stream_once, openAtCheck,
        openAtPublish, nextBuilder]

/-- Helper: projecting the cursor out of the loop-built request gives
back the loop's current cursor. -/
theorem nextBuilder_diff_id (self : DiffRequestBuilder) (cur : Option Nat) :
    (nextBuilder self cur).diff_id = cur := rfl

/-- Step lemma: a cycle whose loop check sees the closed channel stops
with the consumer-closed reason, publishing nothing and issuing no
request. -/
theorem runAux_closed (self : DiffRequestBuilder) (cur : Option Nat)
    (script : List FetchResult) (closeAt : Option Nat) (i : Nat)
    (h : openAtCheck closeAt i = false) :
    runAux self cur script closeAt i = ⟨[], [], StopReason.consumerClosed⟩ := by
  cases script <;> simp [runAux, h]

/-- Step lemma: an exhausted script with an open channel stops with the
model-artifact script-end reason. -/
theorem runAux_nil (self : DiffRequestBuilder) (cur : Option Nat)
    (closeAt : Option Nat) (i : Nat) (h : openAtCheck closeAt i = true) :
    runAux self cur [] closeAt i = ⟨[], [], StopReason.scriptEnd⟩ := by
  simp [runAux, h]

/-- Step lemma: a timeout cycle issues its request, publishes nothing,
keeps the cursor, and continues. -/
theorem runAux_cons_timeout (self : DiffRequestBuilder) (cur : Option Nat)
    (rest : List FetchResult) (closeAt : Option Nat) (i : Nat)
    (h : openAtCheck closeAt i = true) :
    runAux self cur (FetchResult.timeout :: rest) closeAt i
      = ⟨(runAux self cur rest closeAt (i + 1)).published,
         nextBuilder self cur :: (runAux self cur rest closeAt (i + 1)).requests,
         (runAux self cur rest closeAt (i + 1)).reason⟩ := by
  simp [runAux, h, stream_once]

/-- Step lemma: a fatal cycle issues its request, publishes nothing,
and stops with the fatal-error reason. -/
theorem runAux_cons_fatal (self : DiffRequestBuilder) (cur : Option Nat)
    (rest : List FetchResult) (closeAt : Option Nat) (i : Nat)
    (h : openAtCheck closeAt i = true) :
    runAux self cur (FetchResult.fatal :: rest) closeAt i
      = ⟨[], [nextBuilder self cur], StopReason.fatalError⟩ := by
  simp [runAux, h, stream_once]

/-- Step lemma: a successful cycle with an empty batch issues its
request, publishes nothing, keeps the cursor, and continues. -/
theorem runAux_cons_success_empty (self : DiffRequestBuilder) (cur : Option Nat)
    (d : Diff) (rest : List FetchResult) (closeAt : Option Nat) (i : Nat)
    (h : openAtCheck closeAt i = true) (he : d.entries = []) :
    runAux self cur (FetchResult.success d :: rest) closeAt i
      = ⟨(runAux self cur rest closeAt (i + 1)).published,
         nextBuilder self cur :: (runAux self cur rest closeAt (i + 1)).requests,
         (runAux self cur rest closeAt (i + 1)).reason⟩ := by
  rcases d with ⟨hw, entries⟩
  cases he
  simp [runAux, h, stream_once, nextBuilder_diff_id]

/-- Step lemma: a successful cycle with a non-empty batch issues its
request, publishes the cursor-filtered entries when the channel is open
at the publish point (nothing when it is closed), adopts the batch's
high-water diffid as the cursor, and continues. -/
theorem runAux_cons_success_nonempty (self : DiffRequestBuilder) (cur : Option Nat)
    (d : Diff) (rest : List FetchResult) (closeAt : Option Nat) (i : Nat)
    (h : openAtCheck closeAt i = true) (hne : d.entries ≠ []) :
    runAux self cur (FetchResult.success d :: rest) closeAt i
      = ⟨(if openAtPublish closeAt i then sentEntries cur d.entries else [])
           ++ (runAux self (some d.diffid) rest closeAt (i + 1)).published,
         nextBuilder self cur
           :: (runAux self (some d.diffid) rest closeAt (i + 1)).requests,
         (runAux self (some d.diffid) rest closeAt (i + 1)).reason⟩ := by
  have hlen : 0 < d.entries.length := List.length_pos.mpr hne
  cases hp : openAtPublish closeAt i <;>
    simp [runAux, h, hp, stream_once, hlen, nextBuilder_diff_id]

/-- C3 counterexample: a poll with request cursor 5 whose batch has
high-water diffid 9 but zero events leaves the stored cursor at 5 — it
is not advanced to the batch's diffid — and the next two driver requests
both carry the old cursor 5. -/
theorem stream_once_empty_batch_cex :
    (stream_once (some 5) (FetchResult.success ⟨9, []⟩) false).2 = OnceResult.ok (some 5)
    ∧ (stream_once (some 5) (FetchResult.success ⟨9, []⟩) false).2 ≠ OnceResult.ok (some 9)
    ∧ (({ DiffRequestBuilder.create with diff_id := some 5 } : DiffRequestBuilder).stream
        [FetchResult.success ⟨9, []⟩, FetchResult.success ⟨9, []⟩] none).requests.map
          (fun r => r.diff_id) = [some 5, some 5] := by
  refine ⟨by decide, by decide, by decide⟩

/-- C3 amended: a poll whose returned batch contains zero events leaves
the stored cursor unchanged (it is NOT advanced to the batch's
high-water diffid), so the next poll call repeats the old cursor: the
request following an empty batch is identical to the one before it. -/
theorem stream_once_empty_batch_keeps_cursor (self : DiffRequestBuilder) (d : Diff)
    (hd : d.entries = []) (closed : Bool) (f : FetchResult) (rest : List FetchResult) :
    (stream_once self.diff_id (FetchResult.success d) closed).2
      = OnceResult.ok self.diff_id
    ∧ ∃ rs, (self.stream (FetchResult.success d :: f :: rest) none).requests
        = nextBuilder self self.diff_id :: nextBuilder self self.diff_id :: rs := by
  constructor
  · rcases d with ⟨hw, entries⟩
    cases hd
    simp [stream_once]
  · rw [DiffRequestBuilder.stream,
      runAux_cons_success_empty self self.diff_id d (f :: rest) none 0 rfl hd]
    cases f with
    | success d2 =>
      by_cases h2 : d2.entries = []
      · rw [runAux_cons_success_empty self self.diff_id d2 rest none 1 rfl h2]
        exact ⟨_, rfl⟩
      · rw [runAux_cons_success_nonempty self self.diff_id d2 rest none 1 rfl h2]
        exact ⟨_, rfl⟩
    | timeout =>
      rw [runAux_cons_timeout self self.diff_id rest none 1 rfl]
      exact ⟨_, rfl⟩
    | fatal =>
      rw [runAux_cons_fatal self self.diff_id rest none 1 rfl]
      exact ⟨_, rfl⟩

/-- Witness for C3 amended at a concrete input. -/
theorem stream_once_empty_batch_keeps_cursor_witness :
    (stream_once ({ DiffRequestBuilder.create with diff_id := some 5 }
        : DiffRequestBuilder).diff_id (FetchResult.success ⟨9, []⟩) false).2
      = OnceResult.ok (some 5)
    ∧ ∃ rs, (({ DiffRequestBuilder.create with diff_id := some 5 }
        : DiffRequestBuilder).stream
        [FetchResult.success ⟨9, []⟩, FetchResult.timeout] none).requests
        = nextBuilder { DiffRequestBuilder.create with diff_id := some 5 } (some 5)
          :: nextBuilder { DiffRequestBuilder.create with diff_id := some 5 } (some 5)
          :: rs :=
  stream_once_empty_batch_keeps_cursor
    { DiffRequestBuilder.create with diff_id := some 5 }
    ⟨9, []⟩ rfl false FetchResult.timeout []

/-- Helper: every request the driver loop issues is built by
`nextBuilder` from some cursor value. -/
theorem runAux_requests_shape (self : DiffRequestBuilder) (script : List FetchResult)
    (closeAt : Option Nat) :
    ∀ (cur : Option Nat) (i : Nat),
      ∀ r ∈ (runAux self cur script closeAt i).requests,
        ∃ c, r = nextBuilder self c := by
  induction script with
  | nil =>
    intro cur i r hr
    cases hoc : openAtCheck closeAt i
    · rw [runAux_closed self cur [] closeAt i hoc] at hr
      simp at hr
    · rw [runAux_nil self cur closeAt i hoc] at hr
      simp at hr
  | cons f rest ih =>
    intro cur i r hr
    cases hoc : openAtCheck closeAt i
    · rw [runAux_closed self cur (f :: rest) closeAt i hoc] at hr
      simp at hr
    · cases f with
      | timeout =>
        rw [runAux_cons_timeout self cur rest closeAt i hoc] at hr
        rcases List.mem_cons.mp hr with h | h
        · exact ⟨cur, h⟩
        · exact ih cur (i + 1) r h
      | fatal =>
        rw [runAux_cons_fatal self cur rest closeAt i hoc] at hr
        rcases List.mem_cons.mp hr with h | h
        · exact ⟨cur, h⟩
        · simp at h
      | success d =>
        by_cases he : d.entries = []
        · rw [runAux_cons_success_empty self cur d rest closeAt i hoc he] at hr
          rcases List.mem_cons.mp hr with h | h
          · exact ⟨cur, h⟩
          · exact ih cur (i + 1) r h
        · rw [runAux_cons_success_nonempty self cur d rest closeAt i hoc he] at hr
          rcases List.mem_cons.mp hr with h | h
          · exact ⟨cur, h⟩
          · exact ih (some d.diffid) (i + 1) r h

/-- C10: every request issued from inside the streaming loop has the
blocking flag forced to `true`, whatever value the caller configured in
the builder's `block` field (the original builder `self` is universally
quantified, so in particular its `block` field is irrelevant). -/
theorem stream_requests_block_forced (self : DiffRequestBuilder)
    (script : List FetchResult) (closeAt : Option Nat) :
    ∀ r ∈ (self.stream script closeAt).requests, r.block = true := by
  intro r hr
  obtain ⟨c, rfl⟩ := runAux_requests_shape self script closeAt self.diff_id 0 r hr
  rfl

/-- Witness for C10 at a concrete input: the single request issued by a
one-timeout run of a builder configured with `block := false` has
`block = true`. -/
theorem stream_requests_block_forced_witness :
    (nextBuilder DiffRequestBuilder.create none).block = true :=
  stream_requests_block_forced DiffRequestBuilder.create [FetchResult.timeout] none
    (nextBuilder DiffRequestBuilder.create none) (by decide)

/-- Helper: once the loop's cursor is set, every request of the rest of
the run carries a set cursor (the cursor never reverts to `none`). -/
theorem runAux_requests_isSome (self : DiffRequestBuilder) (script : List FetchResult)
    (closeAt : Option Nat) :
    ∀ (cur : Option Nat) (i : Nat), cur.isSome = true →
      ∀ r ∈ (runAux self cur script closeAt i).requests, r.diff_id.isSome = true := by
  induction script with
  | nil =>
    intro cur i hcur r hr
    cases hoc : openAtCheck closeAt i
    · rw [runAux_closed self cur [] closeAt i hoc] at hr
      simp at hr
    · rw [runAux_nil self cur closeAt i hoc] at hr
      simp at hr
  | cons f rest ih =>
    intro cur i hcur r hr
    cases hoc : openAtCheck closeAt i
    · rw [runAux_closed self cur (f :: rest) closeAt i hoc] at hr
      simp at hr
    · cases f with
      | timeout =>
        rw [runAux_cons_timeout self cur rest closeAt i hoc] at hr
        rcases List.mem_cons.mp hr with h | h
        · rw [h, nextBuilder_diff_id]; exact hcur
        · exact ih cur (i + 1) hcur r h
      | fatal =>
        rw [runAux_cons_fatal self cur rest closeAt i hoc] at hr
        rcases List.mem_cons.mp hr with h | h
        · rw [h, nextBuilder_diff_id]; exact hcur
        · simp at h
      | success d =>
        by_cases he : d.entries = []
        · rw [runAux_cons_success_empty self cur d rest closeAt i hoc he] at hr
          rcases List.mem_cons.mp hr with h | h
          · rw [h, nextBuilder_diff_id]; exact hcur
          · exact ih cur (i + 1) hcur r h
        · rw [runAux_cons_success_nonempty self cur d rest closeAt i hoc he] at hr
          rcases List.mem_cons.mp hr with h | h
          · rw [h, nextBuilder_diff_id]; exact hcur
          · exact ih (some d.diffid) (i + 1) rfl r h

/-- Helper: along the request sequence of a run, a set cursor is never
followed by an unset one. -/
theorem runAux_requests_isSome_mono (self : DiffRequestBuilder)
    (script : List FetchResult) (closeAt : Option Nat) :
    ∀ (cur : Option Nat) (i : Nat),
      List.Pairwise (fun r1 r2 => r1.diff_id.isSome = true → r2.diff_id.isSome = true)
        (runAux self cur script closeAt i).requests := by
  induction script with
  | nil =>
    intro cur i
    cases hoc : openAtCheck closeAt i
    · rw [runAux_closed self cur [] closeAt i hoc]; exact List.Pairwise.nil
    · rw [runAux_nil self cur closeAt i hoc]; exact List.Pairwise.nil
  | cons f rest ih =>
    intro cur i
    cases hoc : openAtCheck closeAt i
    · rw [runAux_closed self cur (f :: rest) closeAt i hoc]
      exact List.Pairwise.nil
    · cases f with
      | timeout =>
        rw [runAux_cons_timeout self cur rest closeAt i hoc]
        refine List.pairwise_cons.mpr ⟨?_, ih cur (i + 1)⟩
        intro r hr hsome
        rw [nextBuilder_diff_id] at hsome
        exact runAux_requests_isSome self rest closeAt cur (i + 1) hsome r hr
      | fatal =>
        rw [runAux_cons_fatal self cur rest closeAt i hoc]
        refine List.pairwise_cons.mpr ⟨?_, List.Pairwise.nil⟩
        intro r hr
        simp at hr
      | success d =>
        by_cases he : d.entries = []
        · rw [runAux_cons_success_empty self cur d rest closeAt i hoc he]
          refine List.pairwise_cons.mpr ⟨?_, ih cur (i + 1)⟩
          intro r hr hsome
          rw [nextBuilder_diff_id] at hsome
          exact runAux_requests_isSome self rest closeAt cur (i + 1) hsome r hr
        · rw [runAux_cons_success_nonempty self cur d rest closeAt i hoc he]
          refine List.pairwise_cons.mpr ⟨?_, ih (some d.diffid) (i + 1)⟩
          intro r hr _
          exact runAux_requests_isSome self rest closeAt (some d.diffid) (i + 1)
            rfl r hr

/-- C8: in the streaming loop, a request that carries a cursor never
carries the `after` timestamp (cursor-based resumption takes precedence
and the timestamp is omitted), and once some request carries a cursor
every later request does too — so after the first call that yields a
cursor, all subsequent requests use cursor-based resumption only. -/
theorem stream_requests_cursor_precedence (self : DiffRequestBuilder)
    (script : List FetchResult) (closeAt : Option Nat) :
    (∀ r ∈ (self.stream script closeAt).requests,
        r.diff_id.isSome = true → r.after = none)
    ∧ List.Pairwise (fun r1 r2 => r1.diff_id.isSome = true → r2.diff_id.isSome = true)
        (self.stream script closeAt).requests := by
  constructor
  · intro r hr hsome
    obtain ⟨c, rfl⟩ := runAux_requests_shape self script closeAt self.diff_id 0 r hr
    rw [nextBuilder_diff_id] at hsome
    rw [Option.isSome_iff_exists] at hsome
    obtain ⟨x, rfl⟩ := hsome
    rfl
  · exact runAux_requests_isSome_mono self script closeAt self.diff_id 0

/-- Witness for C8 at a concrete input: a builder configured with both
a start cursor and an `after` timestamp issues, in one streaming cycle,
a request whose cursor is set and whose `after` field is dropped. -/
theorem stream_requests_cursor_precedence_witness :
    (nextBuilder { DiffRequestBuilder.create with diff_id := some 7, after := some "t" }
        (some 7)).after = none :=
  (stream_requests_cursor_precedence
      { DiffRequestBuilder.create with diff_id := some 7, after := some "t" }
      [FetchResult.timeout] none).1
    (nextBuilder { DiffRequestBuilder.create with diff_id := some 7, after := some "t" }
      (some 7))
    (by decide) (by decide)

/-- Helper for C4: with a set cursor, a run of `n` timeouts followed by
one successful batch holding a single newer entry publishes exactly that
entry, ends only because the script ends (never with an error), and
issues `n + 1` requests that all carry identical parameters. -/
theorem runAux_timeouts_then_success (self : DiffRequestBuilder) (c : Nat)
    (d : Diff) (e : DiffEntry) (hd : d.entries = [e]) (he : c < e.diffid) :
    ∀ (n i : Nat),
      runAux self (some c) (List.replicate n FetchResult.timeout
          ++ [FetchResult.success d]) none i
        = ⟨[e], List.replicate (n + 1) (nextBuilder self (some c)),
            StopReason.scriptEnd⟩ := by
  intro n
  induction n with
  | zero =>
    intro i
    have hne : d.entries ≠ [] := by rw [hd]; simp
    rw [List.replicate_zero, List.nil_append,
      runAux_cons_success_nonempty self (some c) d [] none i rfl hne,
      runAux_nil self (some d.diffid) none (i + 1) rfl]
    have hsent : sentEntries (some c) d.entries = [e] := by
      rw [hd]
      simp [sentEntries, he]
    simp [openAtPublish, hsent]
  | succ n ih =>
    intro i
    rw [List.replicate_succ, List.cons_append,
      runAux_cons_timeout self (some c) _ none i rfl, ih (i + 1)]
    simp [List.replicate_succ]

/-- C4: a fetcher that times out `n` times and then returns a batch with
one event newer than the stream's cursor results in the consumer
receiving exactly that event and no error: every retry request carries
parameters identical to the first request (same cursor, same
configuration), and the run never stops with a fatal reason. -/
theorem stream_timeout_retry_transparent (self : DiffRequestBuilder) (c : Nat)
    (hc : self.diff_id = some c) (n : Nat) (d : Diff) (e : DiffEntry)
    (hd : d.entries = [e]) (he : c < e.diffid) :
    (self.stream (List.replicate n FetchResult.timeout
        ++ [FetchResult.success d]) none).published = [e]
    ∧ (self.stream (List.replicate n FetchResult.timeout
        ++ [FetchResult.success d]) none).reason = StopReason.scriptEnd
    ∧ (self.stream (List.replicate n FetchResult.timeout
        ++ [FetchResult.success d]) none).requests
      = List.replicate (n + 1) (nextBuilder self (some c)) := by
  rw [DiffRequestBuilder.stream, hc,
    runAux_timeouts_then_success self c d e hd he n 0]
  exact ⟨rfl, rfl, rfl⟩

/-- Witness for C4 at a concrete input: three timeouts then a batch with
the single entry of diffid 1, starting from cursor 0. -/
theorem stream_timeout_retry_transparent_witness :
    (({ DiffRequestBuilder.create with diff_id := some 0 }
        : DiffRequestBuilder).stream (List.replicate 3 FetchResult.timeout
        ++ [FetchResult.success ⟨1, [⟨1, 0⟩]⟩]) none).published = [⟨1, 0⟩]
    ∧ (({ DiffRequestBuilder.create with diff_id := some 0 }
        : DiffRequestBuilder).stream (List.replicate 3 FetchResult.timeout
        ++ [FetchResult.success ⟨1, [⟨1, 0⟩]⟩]) none).reason = StopReason.scriptEnd
    ∧ (({ DiffRequestBuilder.create with diff_id := some 0 }
        : DiffRequestBuilder).stream (List.replicate 3 FetchResult.timeout
        ++ [FetchResult.success ⟨1, [⟨1, 0⟩]⟩]) none).requests
      = List.replicate 4 (nextBuilder { DiffRequestBuilder.create with diff_id := some 0 }
          (some 0)) :=
  stream_timeout_retry_transparent
    { DiffRequestBuilder.create with diff_id := some 0 } 0 rfl 3
    ⟨1, [⟨1, 0⟩]⟩ ⟨1, 0⟩ rfl (by decide)

/-- Helper for C6: a run whose consumer closes during the flight of
fetch `c` issues at most `c + 1 - i` further requests from cycle `i`
on, and publishes exactly what the run truncated to the cycles strictly
before `c` (with no close at all) publishes — nothing from the
in-flight fetch or any later one. -/
theorem runAux_close_truncates (self : DiffRequestBuilder) (c : Nat) :
    ∀ (script : List FetchResult) (cur : Option Nat) (i : Nat),
      (runAux self cur script (some c) i).requests.length ≤ c + 1 - i
      ∧ (runAux self cur script (some c) i).published
        = (runAux self cur (script.take (c - i)) none i).published := by
  intro script
  induction script with
  | nil =>
    intro cur i
    cases hoc : openAtCheck (some c) i
    · rw [runAux_closed self cur [] (some c) i hoc, List.take_nil,
        runAux_nil self cur none i rfl]
      exact ⟨by simp, rfl⟩
    · rw [runAux_nil self cur (some c) i hoc, List.take_nil,
        runAux_nil self cur none i rfl]
      exact ⟨by simp, rfl⟩
  | cons f rest ih =>
    intro cur i
    by_cases hic : i ≤ c
    · have hoc : openAtCheck (some c) i = true := by
        simp [openAtCheck, hic]
      by_cases hlt : i < c
      · -- the channel is still open at this cycle's publish point
        have hop : openAtPublish (some c) i = true := by
          simp [openAtPublish, hlt]
        have htake : (f :: rest).take (c - i) = f :: rest.take (c - (i + 1)) := by
          have : c - i = (c - (i + 1)) + 1 := by omega
          rw [this, List.take_succ_cons]
        cases f with
        | timeout =>
          rw [runAux_cons_timeout self cur rest (some c) i hoc, htake,
            runAux_cons_timeout self cur _ none i rfl]
          refine ⟨?_, (ih cur (i + 1)).2⟩
          have := (ih cur (i + 1)).1
          simp only [List.length_cons]
          omega
        | fatal =>
          rw [runAux_cons_fatal self cur rest (some c) i hoc, htake,
            runAux_cons_fatal self cur _ none i rfl]
          exact ⟨by simp; omega, rfl⟩
        | success d =>
          by_cases he : d.entries = []
          · rw [runAux_cons_success_empty self cur d rest (some c) i hoc he, htake,
              runAux_cons_success_empty self cur d _ none i rfl he]
            refine ⟨?_, (ih cur (i + 1)).2⟩
            have := (ih cur (i + 1)).1
            simp only [List.length_cons]
            omega
          · rw [runAux_cons_success_nonempty self cur d rest (some c) i hoc he, htake,
              runAux_cons_success_nonempty self cur d _ none i rfl he]
            refine ⟨?_, ?_⟩
            · have := (ih (some d.diffid) (i + 1)).1
              simp only [List.length_cons]
              omega
            · simp [openAtPublish, hlt, (ih (some d.diffid) (i + 1)).2]
      · -- i = c: the close is observed at this cycle's publish point
        have hieq : i = c := by omega
        have hop : openAtPublish (some c) i = false := by
          simp [openAtPublish]
          omega
        have htake : c - i = 0 := by omega
        rw [htake, List.take_zero]
        cases f with
        | timeout =>
          rw [runAux_cons_timeout self cur rest (some c) i hoc,
            runAux_nil self cur none i rfl]
          have hclosed : openAtCheck (some c) (i + 1) = false := by
            simp [openAtCheck]
            omega
          rw [runAux_closed self cur rest (some c) (i + 1) hclosed]
          exact ⟨by simp; omega, rfl⟩
        | fatal =>
          rw [runAux_cons_fatal self cur rest (some c) i hoc,
            runAux_nil self cur none i rfl]
          exact ⟨by simp; omega, rfl⟩
        | success d =>
          by_cases he : d.entries = []
          · rw [runAux_cons_success_empty self cur d rest (some c) i hoc he,
              runAux_nil self cur none i rfl]
            have hclosed : openAtCheck (some c) (i + 1) = false := by
              simp [openAtCheck]
              omega
            rw [runAux_closed self cur rest (some c) (i + 1) hclosed]
            exact ⟨by simp; omega, rfl⟩
          · rw [runAux_cons_success_nonempty self cur d rest (some c) i hoc he,
              runAux_nil self cur none i rfl]
            have hclosed : openAtCheck (some c) (i + 1) = false := by
              simp [openAtCheck]
              omega
            rw [runAux_closed self (some d.diffid) rest (some c) (i + 1) hclosed]
            simp [hop]
            omega
    · -- the loop check already sees the closed channel
      have hoc : openAtCheck (some c) i = false := by
        simp [openAtCheck]
        omega
      have htake : c - i = 0 := by omega
      rw [runAux_closed self cur (f :: rest) (some c) i hoc, htake, List.take_zero,
        runAux_nil self cur none i rfl]
      exact ⟨by simp, rfl⟩

/-- C6: when the consumer closes its receiving handle while fetch `c`
is in flight, the driver reaches its terminal state within one fetch
cycle — it issues at most `c + 1` requests in total — and publishes
exactly what the close-free run over the fetches that completed before
the close publishes: the events of the in-flight fetch (and of any
later one) are never published. -/
theorem stream_close_within_one_cycle (self : DiffRequestBuilder)
    (script : List FetchResult) (c : Nat) :
    (self.stream script (some c)).requests.length ≤ c + 1
    ∧ (self.stream script (some c)).published
      = (self.stream (script.take c) none).published := by
  have h := runAux_close_truncates self c script self.diff_id 0
  rw [DiffRequestBuilder.stream, DiffRequestBuilder.stream]
  simpa using h

/-- A well-formed batch in the sense of the spec's ChangeBatch
invariant: its entries are ordered by strictly increasing diffid and
the batch's high-water diffid bounds every entry's diffid. -/
def batchWF (d : Diff) : Prop :=
  List.Pairwise (fun a b => a.diffid < b.diffid) d.entries
  ∧ ∀ e ∈ d.entries, e.diffid ≤ d.diffid

/-- The high-water diffids of the successful batches of a fetch script,
in script order. -/
def scriptDiffids (script : List FetchResult) : List Nat :=
  script.filterMap (fun f =>
    match f with
    | FetchResult.success d => some d.diffid
    | _ => none)

/-- Helper: `scriptDiffids` on a successful head. -/
theorem scriptDiffids_cons_success (d : Diff) (rest : List FetchResult) :
    scriptDiffids (FetchResult.success d :: rest) = d.diffid :: scriptDiffids rest :=
  rfl

/-- Helper: `scriptDiffids` ignores a timeout head. -/
theorem scriptDiffids_cons_timeout (rest : List FetchResult) :
    scriptDiffids (FetchResult.timeout :: rest) = scriptDiffids rest := rfl

/-- Helper: `scriptDiffids` ignores a fatal head. -/
theorem scriptDiffids_cons_fatal (rest : List FetchResult) :
    scriptDiffids (FetchResult.fatal :: rest) = scriptDiffids rest := rfl

/-- Helper: the entries sent for one batch form a sublist of the
batch's entries. -/
theorem sentEntries_sublist (cur : Option Nat) (l : List DiffEntry) :
    List.Sublist (sentEntries cur l) l := by
  cases cur with
  | none => exact List.Sublist.refl l
  | some x => exact List.filter_sublist l

/-- Helper: with a set request cursor, every sent entry's diffid
strictly exceeds the cursor. -/
theorem sentEntries_mem_gt (x : Nat) (l : List DiffEntry) :
    ∀ e ∈ sentEntries (some x) l, x < e.diffid := by
  intro e he
  have := (List.mem_filter.mp he).2
  simpa using this

/-- Helper (loop invariant, dominated-cursor case): if every batch of
the script is well-formed, the successful batches' diffids are
non-decreasing, and the current cursor (when set) is at most every
upcoming batch diffid, then the published sequence has strictly
increasing diffids, all strictly above the current cursor. -/
theorem runAux_published_increasing_of_lb (self : DiffRequestBuilder)
    (closeAt : Option Nat) :
    ∀ (script : List FetchResult) (cur : Option Nat) (i : Nat),
      (∀ d, FetchResult.success d ∈ script → batchWF d) →
      List.Pairwise (fun a b => a ≤ b) (scriptDiffids script) →
      (∀ x, cur = some x → ∀ n ∈ scriptDiffids script, x ≤ n) →
      List.Pairwise (fun a b => a.diffid < b.diffid)
        (runAux self cur script closeAt i).published
      ∧ (∀ e ∈ (runAux self cur script closeAt i).published,
          ∀ x, cur = some x → x < e.diffid) := by
  intro script
  induction script with
  | nil =>
    intro cur i hwf hmono hlb
    cases hoc : openAtCheck closeAt i
    · rw [runAux_closed self cur [] closeAt i hoc]
      exact ⟨List.Pairwise.nil, fun e he => absurd he (List.not_mem_nil e)⟩
    · rw [runAux_nil self cur closeAt i hoc]
      exact ⟨List.Pairwise.nil, fun e he => absurd he (List.not_mem_nil e)⟩
  | cons f rest ih =>
    intro cur i hwf hmono hlb
    cases hoc : openAtCheck closeAt i
    · rw [runAux_closed self cur (f :: rest) closeAt i hoc]
      exact ⟨List.Pairwise.nil, fun e he => absurd he (List.not_mem_nil e)⟩
    · cases f with
      | timeout =>
        rw [runAux_cons_timeout self cur rest closeAt i hoc]
        exact ih cur (i + 1)
          (fun d hd => hwf d (List.mem_cons_of_mem _ hd))
          (by rwa [scriptDiffids_cons_timeout] at hmono)
          (by rw [scriptDiffids_cons_timeout] at hlb; exact hlb)
      | fatal =>
        rw [runAux_cons_fatal self cur rest closeAt i hoc]
        exact ⟨List.Pairwise.nil, fun e he => absurd he (List.not_mem_nil e)⟩
      | success d =>
        have hdmem : d.diffid ∈ scriptDiffids (FetchResult.success d :: rest) := by
          rw [scriptDiffids_cons_success]
          exact List.mem_cons_self _ _
        have hwf' : ∀ d2, FetchResult.success d2 ∈ rest → batchWF d2 :=
          fun d2 hd2 => hwf d2 (List.mem_cons_of_mem _ hd2)
        have hmono' : List.Pairwise (fun a b => a ≤ b) (scriptDiffids rest) := by
          rw [scriptDiffids_cons_success] at hmono
          exact (List.pairwise_cons.mp hmono).2
        have hhead : ∀ n ∈ scriptDiffids rest, d.diffid ≤ n := by
          rw [scriptDiffids_cons_success] at hmono
          exact (List.pairwise_cons.mp hmono).1
        by_cases he : d.entries = []
        · rw [runAux_cons_success_empty self cur d rest closeAt i hoc he]
          refine ih cur (i + 1) hwf' hmono' ?_
          intro x hx n hn
          exact hlb x hx n
            (by rw [scriptDiffids_cons_success]; exact List.mem_cons_of_mem _ hn)
        · rw [runAux_cons_success_nonempty self cur d rest closeAt i hoc he]
          have hlb' : ∀ x, (some d.diffid : Option Nat) = some x →
              ∀ n ∈ scriptDiffids rest, x ≤ n := by
            intro x hx n hn
            cases hx
            exact hhead n hn
          obtain ⟨hr_pw, hr_gt⟩ := ih (some d.diffid) (i + 1) hwf' hmono' hlb'
          obtain ⟨hd_pw, hd_ub⟩ := hwf d (List.mem_cons_self _ _)
          have hcur_le : ∀ x, cur = some x → x ≤ d.diffid :=
            fun x hx => hlb x hx d.diffid hdmem
          cases hop : openAtPublish closeAt i
          · simp only [hop, Bool.false_eq_true, if_false, List.nil_append]
            refine ⟨hr_pw, ?_⟩
            intro e hee x hx
            exact lt_of_le_of_lt (hcur_le x hx) (hr_gt e hee d.diffid rfl)
          · simp only [hop, if_true]
            have hsent_pw : List.Pairwise (fun a b => a.diffid < b.diffid)
                (sentEntries cur d.entries) :=
              hd_pw.sublist (sentEntries_sublist cur d.entries)
            have hsent_ub : ∀ a ∈ sentEntries cur d.entries, a.diffid ≤ d.diffid :=
              fun a ha => hd_ub a ((sentEntries_sublist cur d.entries).mem ha)
            refine ⟨List.pairwise_append.mpr ⟨hsent_pw, hr_pw, ?_⟩, ?_⟩
            · intro a ha b hb
              exact lt_of_le_of_lt (hsent_ub a ha) (hr_gt b hb d.diffid rfl)
            · intro e hee x hx
              rcases List.mem_append.mp hee with h | h
              · cases hx
                exact sentEntries_mem_gt x d.entries e h
              · exact lt_of_le_of_lt (hcur_le x hx) (hr_gt e h d.diffid rfl)

/-- Helper (loop invariant, arbitrary-cursor case): if every batch of
the script is well-formed and the successful batches' diffids are
non-decreasing, the published sequence has strictly increasing diffids,
whatever the initial cursor. -/
theorem runAux_published_increasing (self : DiffRequestBuilder)
    (closeAt : Option Nat) :
    ∀ (script : List FetchResult) (cur : Option Nat) (i : Nat),
      (∀ d, FetchResult.success d ∈ script → batchWF d) →
      List.Pairwise (fun a b => a ≤ b) (scriptDiffids script) →
      List.Pairwise (fun a b => a.diffid < b.diffid)
        (runAux self cur script closeAt i).published := by
  intro script
  induction script with
  | nil =>
    intro cur i hwf hmono
    cases hoc : openAtCheck closeAt i
    · rw [runAux_closed self cur [] closeAt i hoc]; exact List.Pairwise.nil
    · rw [runAux_nil self cur closeAt i hoc]; exact List.Pairwise.nil
  | cons f rest ih =>
    intro cur i hwf hmono
    cases hoc : openAtCheck closeAt i
    · rw [runAux_closed self cur (f :: rest) closeAt i hoc]
      exact List.Pairwise.nil
    · cases f with
      | timeout =>
        rw [runAux_cons_timeout self cur rest closeAt i hoc]
        exact ih cur (i + 1)
          (fun d hd => hwf d (List.mem_cons_of_mem _ hd))
          (by rwa [scriptDiffids_cons_timeout] at hmono)
      | fatal =>
        rw [runAux_cons_fatal self cur rest closeAt i hoc]
        exact List.Pairwise.nil
      | success d =>
        have hwf' : ∀ d2, FetchResult.success d2 ∈ rest → batchWF d2 :=
          fun d2 hd2 => hwf d2 (List.mem_cons_of_mem _ hd2)
        have hmono' : List.Pairwise (fun a b => a ≤ b) (scriptDiffids rest) := by
          rw [scriptDiffids_cons_success] at hmono
          exact (List.pairwise_cons.mp hmono).2
        have hhead : ∀ n ∈ scriptDiffids rest, d.diffid ≤ n := by
          rw [scriptDiffids_cons_success] at hmono
          exact (List.pairwise_cons.mp hmono).1
        by_cases he : d.entries = []
        · rw [runAux_cons_success_empty self cur d rest closeAt i hoc he]
          exact ih cur (i + 1) hwf' hmono'
        · rw [runAux_cons_success_nonempty self cur d rest closeAt i hoc he]
          have hlb' : ∀ x, (some d.diffid : Option Nat) = some x →
              ∀ n ∈ scriptDiffids rest, x ≤ n := by
            intro x hx n hn
            cases hx
            exact hhead n hn
          obtain ⟨hr_pw, hr_gt⟩ :=
            runAux_published_increasing_of_lb self closeAt rest (some d.diffid)
              (i + 1) hwf' hmono' hlb'
          obtain ⟨hd_pw, hd_ub⟩ := hwf d (List.mem_cons_self _ _)
          cases hop : openAtPublish closeAt i
          · simpa only [hop, Bool.false_eq_true, if_false, List.nil_append] using hr_pw
          · simp only [hop, if_true]
            have hsent_pw : List.Pairwise (fun a b => a.diffid < b.diffid)
                (sentEntries cur d.entries) :=
              hd_pw.sublist (sentEntries_sublist cur d.entries)
            have hsent_ub : ∀ a ∈ sentEntries cur d.entries, a.diffid ≤ d.diffid :=
              fun a ha => hd_ub a ((sentEntries_sublist cur d.entries).mem ha)
            refine List.pairwise_append.mpr ⟨hsent_pw, hr_pw, ?_⟩
            intro a ha b hb
            exact lt_of_le_of_lt (hsent_ub a ha) (hr_gt b hb d.diffid rfl)

/-- C1 counterexample: three individually well-formed batches whose
high-water diffids regress (10, then 4, then 10 — the third duplicates
the first) make the driver publish the entry with diffid 5 twice: the
published sequence is neither strictly increasing nor duplicate-free,
refuting the claim for fully arbitrary batch sequences. -/
theorem stream_published_not_increasing_cex :
    (DiffRequestBuilder.create.stream
        [FetchResult.success ⟨10, [⟨5, 0⟩]⟩, FetchResult.success ⟨4, [⟨2, 0⟩]⟩,
          FetchResult.success ⟨10, [⟨5, 0⟩]⟩] none).published = [⟨5, 0⟩, ⟨5, 0⟩]
    ∧ ¬ List.Pairwise (fun a b => a.diffid < b.diffid)
        (DiffRequestBuilder.create.stream
          [FetchResult.success ⟨10, [⟨5, 0⟩]⟩, FetchResult.success ⟨4, [⟨2, 0⟩]⟩,
            FetchResult.success ⟨10, [⟨5, 0⟩]⟩] none).published
    ∧ ¬ (DiffRequestBuilder.create.stream
          [FetchResult.success ⟨10, [⟨5, 0⟩]⟩, FetchResult.success ⟨4, [⟨2, 0⟩]⟩,
            FetchResult.success ⟨10, [⟨5, 0⟩]⟩] none).published.Nodup := by
  refine ⟨by decide, by decide, by decide⟩

/-- C1 amended: for every fetch script whose batches are individually
well-formed (entries strictly increasing in diffid and bounded by the
batch's high-water diffid) and whose successful batches' high-water
diffids are non-decreasing — overlapping or duplicated cursors across
batches remain allowed — the sequence of events the driver publishes
has strictly increasing diffids and hence contains no event twice, for
any initial cursor and any consumer-close schedule. -/
theorem stream_published_strictMono (self : DiffRequestBuilder)
    (script : List FetchResult) (closeAt : Option Nat)
    (hwf : ∀ d, FetchResult.success d ∈ script → batchWF d)
    (hmono : List.Pairwise (fun a b => a ≤ b) (scriptDiffids script)) :
    List.Pairwise (fun a b => a.diffid < b.diffid)
      (self.stream script closeAt).published
    ∧ (self.stream script closeAt).published.Nodup := by
  have h := runAux_published_increasing self closeAt script self.diff_id 0 hwf hmono
  exact ⟨h, h.imp (fun hab heq => by cases heq; exact absurd hab (lt_irrefl _))⟩

/-- Witness for C1 amended at a concrete input: two well-formed batches
whose second overlaps the first (the entry with diffid 2 reappears)
yield the strictly increasing, duplicate-free published sequence. -/
theorem stream_published_strictMono_witness :
    List.Pairwise (fun a b => a.diffid < b.diffid)
      (DiffRequestBuilder.create.stream
        [FetchResult.success ⟨2, [⟨1, 0⟩, ⟨2, 0⟩]⟩,
          FetchResult.success ⟨4, [⟨2, 0⟩, ⟨4, 0⟩]⟩] none).published
    ∧ (DiffRequestBuilder.create.stream
        [FetchResult.success ⟨2, [⟨1, 0⟩, ⟨2, 0⟩]⟩,
          FetchResult.success ⟨4, [⟨2, 0⟩, ⟨4, 0⟩]⟩] none).published.Nodup :=
  stream_published_strictMono DiffRequestBuilder.create
    [FetchResult.success ⟨2, [⟨1, 0⟩, ⟨2, 0⟩]⟩,
      FetchResult.success ⟨4, [⟨2, 0⟩, ⟨4, 0⟩]⟩] none
    (by
      intro d hd
      simp only [List.mem_cons, List.not_mem_nil, or_false,
        FetchResult.success.injEq] at hd
      rcases hd with hd | hd <;> cases hd <;> exact ⟨by decide, by decide⟩)
    (by decide)
